import Mathlib

/-!
Verification of the gossip-glomers broadcast node (Rust sources
`src/main.rs` and `src/db.rs`) against its natural-language spec.

The embedding models:
* `DbState` — the redb table `broadcast : u64 -> bool`.  A write
  transaction either commits (creating the table on first use and
  inserting the key) or aborts leaving the state unchanged; this
  external I/O nondeterminism is captured by a `Bool` success flag per
  operation.  The key set is kept as a strictly sorted list, matching
  redb's btree iteration order.
* `HandlerState` — `Handler { db : OnceCell<Db>, addressbook }`; the
  `HashMap<String, HashSet<String>>` addressbook is an association list
  whose keys are the registered node ids.
* one pure state-passing function per arm of `Handler::process` that the
  claims touch (`Broadcast`, `Read`, `ReadOk`, `Init`), returning the new
  state, the list of fire-and-forget forwards issued via
  `rt.call_async`, and the reply / error result.
-/

namespace Gossip

/-- The state of one node's redb database file: whether the `broadcast`
table has ever been created, and its set of `u64` keys, kept as a
strictly sorted list (redb's btree iterates keys in ascending order). -/
structure DbState where
  tableCreated : Bool
  table : List Nat
deriving Repr, DecidableEq

/-- `Db::new`: `Database::create` makes the file but no table yet. -/
def DbState.new : DbState := ⟨false, []⟩

/-- Ordered insertion into the sorted key list; inserting a present key
overwrites its (always-`true`) value, so the key list is unchanged. -/
def insertKey (id : Nat) : List Nat → List Nat
  | [] => [id]
  | x :: xs =>
    if id < x then id :: x :: xs
    else if id = x then x :: xs
    else x :: insertKey id xs

/-- `Db::set_broadcast_id`: begin a write transaction, open (creating if
absent) the table, insert `(id, true)`, commit.  `txnOk` is the success
of the storage round-trip; on failure nothing is persisted and the
caller keeps the old state. -/
def set_broadcast_id (txnOk : Bool) (id : Nat) (s : DbState) :
    Except String DbState :=
  if txnOk then .ok { tableCreated := true, table := insertKey id s.table }
  else .error "storage error"

/-- `Db::seen_broadcast_values`: begin a read transaction (`readOk` is
its success), open the table — `TableDoesNotExist` returns the empty
vector — and otherwise collect every key in iteration order. -/
def seen_broadcast_values (readOk : Bool) (s : DbState) :
    Except String (List Nat) :=
  if readOk then
    if s.tableCreated then .ok s.table else .ok []
  else .error "storage error"

/-- Addressbook: `HashMap<String, HashSet<String>>` as an association
list from node id to its peer set. -/
abbrev Addressbook := List (String × List String)

/-- The registered node ids (`addressbook.keys()`). -/
def abKeys (ab : Addressbook) : List String := ab.map Prod.fst

/-- `add_known_peer`: insert an empty peer set for `peer` unless an
entry already exists. -/
def add_known_peer (ab : Addressbook) (peer : String) : Addressbook :=
  if (abKeys ab).contains peer then ab else ab ++ [(peer, [])]

/-- `Handler { db : OnceCell<Db>, addressbook }`: the store handle is
absent until a successful `init` attaches it. -/
structure HandlerState where
  db : Option DbState
  addressbook : Addressbook

/-- One outbound `rt.call_async(node, Request::Broadcast { message })`. -/
structure Forward where
  dest : String
  message : Nat
deriving Repr, DecidableEq

/-- Replies produced by the handler arms under consideration. -/
inductive Reply where
  | broadcast_ok
  | read_ok (messages : List Nat)
deriving Repr, DecidableEq

/-- The `Request::Init` arm: fail if the runtime assigned no node id,
otherwise register every member id and attach the store exactly once
(`OnceCell::get_or_try_init` keeps an already-attached store). -/
def processInit (selfId : String) (node_ids : List String)
    (st : HandlerState) : HandlerState × Except String Unit :=
  if selfId = "" then (st, .error "node id is empty")
  else
    ({ db := match st.db with
             | some d => some d
             | none => some DbState.new
       addressbook := node_ids.foldl add_known_peer st.addressbook },
     .ok ())

/-- The `Request::Broadcast` arm: require the store attached, insert the
value (aborting on storage failure), snapshot the addressbook keys, fire
one asynchronous forward per key other than this node's own id, then
reply `broadcast_ok`. -/
def processBroadcast (selfId : String) (txnOk : Bool) (st : HandlerState)
    (message : Nat) : HandlerState × List Forward × Except String Reply :=
  match st.db with
  | none => (st, [], .error "node is not initialized")
  | some dbs =>
    match set_broadcast_id txnOk message dbs with
    | .error e => (st, [], .error e)
    | .ok dbs' =>
      let neighbours := abKeys st.addressbook
      let forwards :=
        (neighbours.filter (fun n => n ≠ selfId)).map
          (fun n => Forward.mk n message)
      ({ st with db := some dbs' }, forwards, .ok .broadcast_ok)

/-- The `Request::Read` arm: require the store attached and reply
`read_ok` with every recorded value. -/
def processRead (readOk : Bool) (st : HandlerState) :
    Except String Reply :=
  match st.db with
  | none => .error "node is not initialized"
  | some dbs =>
    match seen_broadcast_values readOk dbs with
    | .error e => .error e
    | .ok values => .ok (.read_ok values)

/-- The `Request::ReadOk` arm: for each listed value in order, check the
store is attached and insert it; the first failure aborts the loop with
that error, keeping all earlier inserts.  `oracle` supplies the success
flag of each successive storage write. -/
def processReadOk (oracle : List Bool) (st : HandlerState) :
    List Nat → HandlerState × Except String Unit
  | [] => (st, .ok ())
  | m :: ms =>
    match st.db with
    | none => (st, .error "node is not initialized")
    | some dbs =>
      match set_broadcast_id (oracle.headD true) m dbs with
      | .error e => (st, .error e)
      | .ok dbs' =>
        processReadOk oracle.tail { st with db := some dbs' } ms

/-- Inserting a list of values in order, all storage writes succeeding. -/
def insertAll (vs : List Nat) (s : DbState) : DbState :=
  vs.foldl (fun s v => { tableCreated := true, table := insertKey v s.table }) s

/-! ### Helper lemmas about the key list -/

theorem mem_insertKey {x v : Nat} :
    ∀ {t : List Nat}, x ∈ insertKey v t ↔ x = v ∨ x ∈ t := by
  intro t
  induction t with
  | nil => simp [insertKey]
  | cons y ys ih =>
    by_cases h1 : v < y
    · simp [insertKey, h1]
    · by_cases h2 : v = y
      · subst h2
        simp [insertKey, h1]
      · simp [insertKey, h1, h2, ih]
        tauto

theorem sorted_insertKey {v : Nat} :
    ∀ {t : List Nat}, t.Pairwise (· < ·) → (insertKey v t).Pairwise (· < ·) := by
  intro t
  induction t with
  | nil => simp [insertKey]
  | cons y ys ih =>
    intro h
    rw [List.pairwise_cons] at h
    obtain ⟨hy, hys⟩ := h
    by_cases h1 : v < y
    · simp only [insertKey, if_pos h1]
      refine List.pairwise_cons.mpr ⟨?_, List.pairwise_cons.mpr ⟨hy, hys⟩⟩
      intro z hz
      rcases List.mem_cons.mp hz with rfl | hz'
      · exact h1
      · exact h1.trans (hy z hz')
    · by_cases h2 : v = y
      · simp only [insertKey, if_neg h1, if_pos h2]
        exact List.pairwise_cons.mpr ⟨hy, hys⟩
      · simp only [insertKey, if_neg h1, if_neg h2]
        refine List.pairwise_cons.mpr ⟨?_, ih hys⟩
        intro z hz
        rcases mem_insertKey.mp hz with rfl | hz'
        · exact Nat.lt_of_le_of_ne (Nat.le_of_not_lt h1) (Ne.symm h2)
        · exact hy z hz'

theorem insertKey_idem (v : Nat) :
    ∀ t : List Nat, insertKey v (insertKey v t) = insertKey v t := by
  intro t
  induction t with
  | nil => simp [insertKey]
  | cons y ys ih =>
    by_cases h1 : v < y
    · simp [insertKey, h1, Nat.lt_irrefl]
    · by_cases h2 : v = y
      · simp [insertKey, h1, h2]
      · simp [insertKey, h1, h2, ih]

theorem mem_insertAll {x : Nat} :
    ∀ (vs : List Nat) (s : DbState),
      x ∈ (insertAll vs s).table ↔ x ∈ vs ∨ x ∈ s.table := by
  intro vs
  induction vs with
  | nil => simp [insertAll]
  | cons v vs ih =>
    intro s
    have : insertAll (v :: vs) s =
        insertAll vs ⟨true, insertKey v s.table⟩ := rfl
    rw [this, ih]
    simp [mem_insertKey]
    tauto

theorem sorted_insertAll :
    ∀ (vs : List Nat) (s : DbState),
      s.table.Pairwise (· < ·) → (insertAll vs s).table.Pairwise (· < ·) := by
  intro vs
  induction vs with
  | nil => intro s h; exact h
  | cons v vs ih =>
    intro s h
    exact ih ⟨true, insertKey v s.table⟩ (sorted_insertKey h)

theorem created_insertAll :
    ∀ (vs : List Nat) (s : DbState), s.tableCreated = true →
      (insertAll vs s).tableCreated = true := by
  intro vs
  induction vs with
  | nil => intro s h; exact h
  | cons v vs ih => intro s _; exact ih ⟨true, insertKey v s.table⟩ rfl

theorem insertAll_replicate_fixed (v : Nat) :
    ∀ (n : Nat) (t : List Nat),
      insertAll (List.replicate n v) ⟨true, insertKey v t⟩ =
        ⟨true, insertKey v t⟩ := by
  intro n
  induction n with
  | zero => intro t; rfl
  | succ n ih =>
    intro t
    have h1 : insertAll (List.replicate (n + 1) v) ⟨true, insertKey v t⟩ =
        insertAll (List.replicate n v) ⟨true, insertKey v (insertKey v t)⟩ := by
      rw [List.replicate_succ]
      rfl
    rw [h1, insertKey_idem, ih]

/-! ### Helper lemmas about the ReadOk backfill loop -/

theorem processReadOk_mono :
    ∀ (msgs : List Nat) (oracle : List Bool) (st st' : HandlerState)
      (d : DbState) (r : Except String Unit),
      st.db = some d → processReadOk oracle st msgs = (st', r) →
      ∃ d', st'.db = some d' ∧ (∀ x ∈ d.table, x ∈ d'.table) ∧
        (d.tableCreated = true → d'.tableCreated = true) := by
  intro msgs
  induction msgs with
  | nil =>
    intro oracle st st' d r hdb hrun
    injection hrun with h1 h2
    exact ⟨d, h1 ▸ hdb, fun x hx => hx, fun h => h⟩
  | cons m ms ih =>
    intro oracle st st' d r hdb hrun
    cases hb : oracle.headD true
    · simp only [processReadOk, hdb, set_broadcast_id, hb, Bool.false_eq_true,
        if_false] at hrun
      injection hrun with h1 h2
      exact ⟨d, h1 ▸ hdb, fun x hx => hx, fun h => h⟩
    · simp only [processReadOk, hdb, set_broadcast_id, hb, if_true] at hrun
      obtain ⟨d', h1, h2, h3⟩ :=
        ih oracle.tail _ st' ⟨true, insertKey m d.table⟩ r rfl hrun
      exact ⟨d', h1, fun x hx => h2 x (mem_insertKey.mpr (Or.inr hx)),
        fun _ => h3 rfl⟩

theorem processReadOk_ok :
    ∀ (msgs : List Nat) (oracle : List Bool) (st st' : HandlerState)
      (d : DbState),
      st.db = some d → processReadOk oracle st msgs = (st', .ok ()) →
      ∃ d', st'.db = some d' ∧ (∀ m ∈ msgs, m ∈ d'.table) ∧
        (msgs ≠ [] → d'.tableCreated = true) := by
  intro msgs
  induction msgs with
  | nil =>
    intro oracle st st' d hdb hrun
    injection hrun with h1 h2
    exact ⟨d, h1 ▸ hdb, by simp, by simp⟩
  | cons m ms ih =>
    intro oracle st st' d hdb hrun
    cases hb : oracle.headD true
    · simp only [processReadOk, hdb, set_broadcast_id, hb, Bool.false_eq_true,
        if_false] at hrun
      injection hrun with h1 h2
      exact absurd h2 (by simp)
    · simp only [processReadOk, hdb, set_broadcast_id, hb, if_true] at hrun
      obtain ⟨d', h1, h2, _⟩ := ih oracle.tail _ st' ⟨true, insertKey m d.table⟩
        rfl hrun
      obtain ⟨d'', h1', h2', h3'⟩ := processReadOk_mono ms oracle.tail _ st'
        ⟨true, insertKey m d.table⟩ (.ok ()) rfl hrun
      rw [h1] at h1'
      injection h1' with hdd
      subst hdd
      refine ⟨d', h1, ?_, fun _ => h3' rfl⟩
      intro x hx
      rcases List.mem_cons.mp hx with rfl | hx'
      · exact h2' x (mem_insertKey.mpr (Or.inl rfl))
      · exact h2 x hx'

/-! ### Claims -/

/-- C2: within a single broadcast handling the store insert strictly
precedes any forward — if the insert fails the handler returns the
storage error, leaves the state unchanged and issues no forwards, and a
nonempty forward list can only arise from a successful insert. -/
theorem claim_C2 (selfId : String) (st : HandlerState) (dbs : DbState)
    (v : Nat) (h : st.db = some dbs) :
    processBroadcast selfId false st v = (st, [], .error "storage error") ∧
    ∀ txnOk : Bool, (processBroadcast selfId txnOk st v).2.1 ≠ [] →
      ∃ dbs', set_broadcast_id txnOk v dbs = .ok dbs' := by
  constructor
  · simp [processBroadcast, h, set_broadcast_id]
  · intro txnOk hfw
    cases txnOk
    · exact absurd (by simp [processBroadcast, h, set_broadcast_id]) hfw
    · exact ⟨⟨true, insertKey v dbs.table⟩, rfl⟩

/-- Witness for C2 at a concrete attached store. -/
theorem claim_C2_witness :
    (HandlerState.mk (some DbState.new) [("B", [])]).db = some DbState.new ∧
    (processBroadcast "A" false ⟨some DbState.new, [("B", [])]⟩ 42 =
        (⟨some DbState.new, [("B", [])]⟩, [], .error "storage error") ∧
      ∀ txnOk : Bool,
        (processBroadcast "A" txnOk ⟨some DbState.new, [("B", [])]⟩ 42).2.1 ≠ [] →
        ∃ dbs', set_broadcast_id txnOk 42 DbState.new = .ok dbs') :=
  ⟨rfl, claim_C2 "A" ⟨some DbState.new, [("B", [])]⟩ DbState.new 42 rfl⟩

/-- C3: the forwards issued by a broadcast handling depend only on the
addressbook (they are the fanout to every registered id other than this
node's), never on the store contents — so they are identical whether or
not the value was already present before the insert. -/
theorem claim_C3 (selfId : String) (ab : Addressbook) (dbs dbs2 : DbState)
    (v : Nat) :
    (processBroadcast selfId true ⟨some dbs, ab⟩ v).2.1 =
      ((abKeys ab).filter (fun n => n ≠ selfId)).map (fun n => Forward.mk n v) ∧
    (processBroadcast selfId true ⟨some dbs, ab⟩ v).2.1 =
      (processBroadcast selfId true ⟨some dbs2, ab⟩ v).2.1 :=
  ⟨rfl, rfl⟩

/-- C4: insert is idempotent — after one successful insert of `v`, any
number of further inserts of `v` leaves `list_all()` unchanged. -/
theorem claim_C4 (v n : Nat) (s s1 : DbState)
    (h : set_broadcast_id true v s = .ok s1) :
    seen_broadcast_values true (insertAll (List.replicate n v) s1) =
      seen_broadcast_values true s1 := by
  simp only [set_broadcast_id, if_true, Except.ok.injEq] at h
  subst h
  rw [insertAll_replicate_fixed]

/-- Witness for C4: one insert of 1, then two repeats. -/
theorem claim_C4_witness :
    set_broadcast_id true 1 DbState.new = .ok ⟨true, [1]⟩ ∧
      seen_broadcast_values true (insertAll (List.replicate 2 1) ⟨true, [1]⟩) =
        seen_broadcast_values true (⟨true, [1]⟩ : DbState) :=
  ⟨rfl, claim_C4 1 2 DbState.new ⟨true, [1]⟩ rfl⟩

/-- C5: after any sequence of successful inserts, `list_all()` succeeds
and returns exactly the distinct inserted values, each exactly once; in
particular inserting 5, 7, 5, 9 yields the keys 5, 7, 9. -/
theorem claim_C5 :
    (∀ vs : List Nat, ∃ l,
      seen_broadcast_values true (insertAll vs DbState.new) = .ok l ∧
      l.Nodup ∧ ∀ x, x ∈ l ↔ x ∈ vs) ∧
    (insertAll [5, 7, 5, 9] DbState.new).table = [5, 7, 9] := by
  constructor
  · intro vs
    cases vs with
    | nil => exact ⟨[], rfl, List.nodup_nil, by simp [insertAll, DbState.new]⟩
    | cons v vs' =>
      have hc : (insertAll (v :: vs') DbState.new).tableCreated = true :=
        created_insertAll vs' ⟨true, insertKey v []⟩ rfl
      refine ⟨(insertAll (v :: vs') DbState.new).table, ?_, ?_, ?_⟩
      · simp [seen_broadcast_values, hc]
      · exact ((sorted_insertAll (v :: vs') DbState.new List.Pairwise.nil).imp
          (fun h => Nat.ne_of_lt h))
      · intro x
        rw [mem_insertAll]
        simp [DbState.new]
  · rfl

/-- C6: a broadcast or read processed before the store is attached fails
with the not-initialized error, issues no forwards, and leaves the
handler state (hence the absent store) untouched. -/
theorem claim_C6 (selfId : String) (txnOk readOk : Bool) (st : HandlerState)
    (v : Nat) (h : st.db = none) :
    processBroadcast selfId txnOk st v =
      (st, [], .error "node is not initialized") ∧
    processRead readOk st = .error "node is not initialized" := by
  constructor
  · simp [processBroadcast, h]
  · simp [processRead, h]

/-- Witness for C6 at an uninitialized handler. -/
theorem claim_C6_witness :
    (HandlerState.mk none []).db = none ∧
    processBroadcast "A" true ⟨none, []⟩ 42 =
      (⟨none, []⟩, [], .error "node is not initialized") ∧
    processRead true ⟨none, []⟩ = .error "node is not initialized" :=
  ⟨rfl, (claim_C6 "A" true true ⟨none, []⟩ 42 rfl).1,
    (claim_C6 "A" true true ⟨none, []⟩ 42 rfl).2⟩

/-- C8: if the table has never been created, `list_all()` returns a
successful empty sequence rather than an error. -/
theorem claim_C8 (d : DbState) (h : d.tableCreated = false) :
    seen_broadcast_values true d = .ok [] := by
  simp [seen_broadcast_values, h]

/-- Witness for C8 at a freshly created database. -/
theorem claim_C8_witness :
    DbState.new.tableCreated = false ∧
      seen_broadcast_values true DbState.new = .ok [] :=
  ⟨rfl, claim_C8 DbState.new rfl⟩

/-- C10: the not-initialized check of the read-ack backfill runs per
value — an empty messages list completes successfully even on an
uninitialized node, while a nonempty one fails there. -/
theorem claim_C10 (oracle : List Bool) (st : HandlerState) (m : Nat)
    (ms : List Nat) (h : st.db = none) :
    processReadOk oracle st [] = (st, .ok ()) ∧
    processReadOk oracle st (m :: ms) =
      (st, .error "node is not initialized") := by
  constructor
  · rfl
  · simp [processReadOk, h]

/-- Witness for C10 at an uninitialized handler. -/
theorem claim_C10_witness :
    (HandlerState.mk none []).db = none ∧
    processReadOk [] ⟨none, []⟩ [] = (⟨none, []⟩, .ok ()) ∧
    processReadOk [] ⟨none, []⟩ [5] =
      (⟨none, []⟩, .error "node is not initialized") :=
  ⟨rfl, (claim_C10 [] ⟨none, []⟩ 5 [] rfl).1,
    (claim_C10 [] ⟨none, []⟩ 5 [] rfl).2⟩

/-- C1: a broadcast of `v` processed with the store attached and the
insert succeeding replies `broadcast_ok`, and issues exactly one forward
of `broadcast{v}` to each registered node id other than this node's own
id — every forward carries `v` and targets a registered non-self id. -/
theorem claim_C1 (selfId : String) (st : HandlerState) (dbs : DbState)
    (v : Nat) (hdb : st.db = some dbs)
    (hnd : (abKeys st.addressbook).Nodup) :
    (processBroadcast selfId true st v).2.2 = .ok .broadcast_ok ∧
    (∀ f ∈ (processBroadcast selfId true st v).2.1,
      f.message = v ∧ f.dest ≠ selfId ∧ f.dest ∈ abKeys st.addressbook) ∧
    (∀ n ∈ abKeys st.addressbook, n ≠ selfId →
      (processBroadcast selfId true st v).2.1.count ⟨n, v⟩ = 1) := by
  have hred : processBroadcast selfId true st v =
      ({ st with db := some ⟨true, insertKey v dbs.table⟩ },
        ((abKeys st.addressbook).filter (fun n => n ≠ selfId)).map
          (fun n => Forward.mk n v),
        .ok .broadcast_ok) := by
    simp [processBroadcast, hdb, set_broadcast_id]
  rw [hred]
  refine ⟨rfl, ?_, ?_⟩
  · intro f hf
    simp only [List.mem_map, List.mem_filter, decide_eq_true_eq] at hf
    obtain ⟨n, ⟨hn1, hn2⟩, rfl⟩ := hf
    exact ⟨rfl, hn2, hn1⟩
  · intro n hn hne
    have hmem : Forward.mk n v ∈
        ((abKeys st.addressbook).filter (fun x => x ≠ selfId)).map
          (fun x => Forward.mk x v) := by
      simp only [List.mem_map, List.mem_filter, decide_eq_true_eq]
      exact ⟨n, ⟨hn, hne⟩, rfl⟩
    have hinj : Function.Injective (fun x => Forward.mk x v) :=
      fun a b hab => congrArg Forward.dest hab
    exact List.count_eq_one_of_mem ((hnd.filter _).map hinj) hmem

/-- Witness for C1: node A with registered ids A, B, C broadcasting 42. -/
theorem claim_C1_witness :
    (HandlerState.mk (some DbState.new)
        [("A", []), ("B", []), ("C", [])]).db = some DbState.new ∧
    (abKeys [("A", []), ("B", []), ("C", [])]).Nodup ∧
    ((processBroadcast "A" true
        ⟨some DbState.new, [("A", []), ("B", []), ("C", [])]⟩ 42).2.2 =
          .ok .broadcast_ok ∧
      (∀ f ∈ (processBroadcast "A" true
          ⟨some DbState.new, [("A", []), ("B", []), ("C", [])]⟩ 42).2.1,
        f.message = 42 ∧ f.dest ≠ "A" ∧
          f.dest ∈ abKeys [("A", []), ("B", []), ("C", [])]) ∧
      ∀ n ∈ abKeys [("A", []), ("B", []), ("C", [])], n ≠ "A" →
        (processBroadcast "A" true
          ⟨some DbState.new, [("A", []), ("B", []), ("C", [])]⟩ 42).2.1.count
            ⟨n, 42⟩ = 1) :=
  ⟨rfl, by decide,
    claim_C1 "A" ⟨some DbState.new, [("A", []), ("B", []), ("C", [])]⟩
      DbState.new 42 rfl (by decide)⟩

/-- C7: a read-ack backfill that completes successfully with the store
attached has inserted every listed value, so a subsequent read on this
node returns a value list containing at least those values. -/
theorem claim_C7 (oracle : List Bool) (st st' : HandlerState)
    (dbs : DbState) (msgs : List Nat) (hdb : st.db = some dbs)
    (hrun : processReadOk oracle st msgs = (st', .ok ())) :
    ∃ dbs', st'.db = some dbs' ∧ (∀ m ∈ msgs, m ∈ dbs'.table) ∧
      ∃ l, processRead true st' = .ok (.read_ok l) ∧ ∀ m ∈ msgs, m ∈ l := by
  obtain ⟨d', h1, h2, h3⟩ := processReadOk_ok msgs oracle st st' dbs hdb hrun
  refine ⟨d', h1, h2, ?_⟩
  cases msgs with
  | nil =>
    cases hc : d'.tableCreated
    · exact ⟨[], by simp [processRead, h1, seen_broadcast_values, hc], by simp⟩
    · exact ⟨d'.table, by simp [processRead, h1, seen_broadcast_values, hc],
        by simp⟩
  | cons m ms =>
    have hc := h3 (by simp)
    exact ⟨d'.table,
      by simp [processRead, h1, seen_broadcast_values, hc], h2⟩

/-- Witness for C7: backfilling messages 1, 2, 3 into a fresh node. -/
theorem claim_C7_witness :
    (HandlerState.mk (some DbState.new) []).db = some DbState.new ∧
    processReadOk [] ⟨some DbState.new, []⟩ [1, 2, 3] =
      (⟨some ⟨true, [1, 2, 3]⟩, []⟩, .ok ()) ∧
    ∃ dbs', (HandlerState.mk (some ⟨true, [1, 2, 3]⟩) []).db = some dbs' ∧
      (∀ m ∈ [1, 2, 3], m ∈ dbs'.table) ∧
      ∃ l, processRead true ⟨some ⟨true, [1, 2, 3]⟩, []⟩ =
          .ok (.read_ok l) ∧ ∀ m ∈ [1, 2, 3], m ∈ l :=
  ⟨rfl, rfl,
    claim_C7 [] ⟨some DbState.new, []⟩ ⟨some ⟨true, [1, 2, 3]⟩, []⟩
      DbState.new [1, 2, 3] rfl rfl⟩

/-- C9: the read-ack backfill is not atomic — if the k-th storage write
fails (after k successful ones), the handler surfaces the storage error
yet every one of the first k values remains inserted in the store. -/
theorem claim_C9 :
    ∀ (k : Nat) (msgs : List Nat) (st : HandlerState) (dbs : DbState),
      st.db = some dbs → k < msgs.length →
      ∃ st', processReadOk (List.replicate k true ++ [false]) st msgs =
          (st', .error "storage error") ∧
        ∃ dbs', st'.db = some dbs' ∧ ∀ m ∈ msgs.take k, m ∈ dbs'.table := by
  intro k
  induction k with
  | zero =>
    intro msgs st dbs hdb hk
    cases msgs with
    | nil => simp at hk
    | cons m ms =>
      refine ⟨st, ?_, dbs, hdb, by simp⟩
      simp [processReadOk, hdb, set_broadcast_id]
  | succ k ih =>
    intro msgs st dbs hdb hk
    cases msgs with
    | nil => simp at hk
    | cons m ms =>
      have hk' : k < ms.length := Nat.lt_of_succ_lt_succ hk
      obtain ⟨st', hrun, dbs', h1, h2⟩ :=
        ih ms { st with db := some ⟨true, insertKey m dbs.table⟩ }
          ⟨true, insertKey m dbs.table⟩ rfl hk'
      refine ⟨st', ?_, dbs', h1, ?_⟩
      · simp only [List.replicate_succ, List.cons_append, processReadOk, hdb,
          set_broadcast_id, List.headD_cons, if_true, List.tail_cons]
        exact hrun
      · obtain ⟨d'', h1', h2', _⟩ := processReadOk_mono ms
          (List.replicate k true ++ [false])
          { st with db := some ⟨true, insertKey m dbs.table⟩ } st'
          ⟨true, insertKey m dbs.table⟩ (.error "storage error") rfl hrun
        rw [h1] at h1'
        injection h1' with hdd
        subst hdd
        intro x hx
        simp only [List.take_succ_cons, List.mem_cons] at hx
        rcases hx with rfl | hx'
        · exact h2' x (mem_insertKey.mpr (Or.inl rfl))
        · exact h2 x hx'

/-- Witness for C9: the second of two backfilled values hits a storage
failure; the first value remains recorded. -/
theorem claim_C9_witness :
    (HandlerState.mk (some DbState.new) []).db = some DbState.new ∧
    1 < ([1, 2] : List Nat).length ∧
    ∃ st', processReadOk (List.replicate 1 true ++ [false])
        ⟨some DbState.new, []⟩ [1, 2] = (st', .error "storage error") ∧
      ∃ dbs', st'.db = some dbs' ∧ ∀ m ∈ ([1, 2] : List Nat).take 1,
        m ∈ dbs'.table :=
  ⟨rfl, by decide,
    claim_C9 1 [1, 2] ⟨some DbState.new, []⟩ DbState.new rfl (by decide)⟩

end Gossip
